import Mathlib

/-!
Verification development for the Lilimod numerical Laplace-inversion core.

The definitions below are a shallow embedding of the Python sources
`src/Code/maths/stehfest.py` and `src/Code/maths/iseger.py`.
Real (float) arithmetic is modelled by `ℝ` (exact rational subcomputations by
`ℚ`), Python integers by `ℤ`/`ℕ` (with `Int.tdiv` for Python's
truncating `int(x/y)` conversion), raised exceptions by `Except PyErr`,
and the caller-supplied Laplace image by a total function.
Calls of the image callable are traced explicitly: the traced inverters
return the list of abscissas at which the image was evaluated, in order.
-/

/-- Python exception kinds raised by the modelled code paths. -/
inductive PyErr : Type
  | zeroDivisionError : PyErr
  | arithmeticError : PyErr
  | valueError : PyErr
deriving DecidableEq, Repr

namespace Stehfest

/-- Summand of the inner `for k in range(kmin, kmax + 1)` loop of
`Stehfest._initialize` (stehfest.py lines 62-65):
`(k^N2 / k!) * ((2k)! / (2k-i-1)!) / (N2-k)! / (k-1)! / (i+1-k)!`.
All subtractions are nonnegative for every executed iteration, so `ℕ`
subtraction is faithful. -/
def term (n2 i k : ℕ) : ℚ :=
  ((k : ℚ) ^ n2 / (Nat.factorial k : ℚ)) *
      ((Nat.factorial (2 * k) : ℚ) / (Nat.factorial (2 * k - i - 1) : ℚ)) /
      (Nat.factorial (n2 - k) : ℚ) / (Nat.factorial (k - 1) : ℚ) /
      (Nat.factorial (i + 1 - k) : ℚ)

/-- Accumulation of `self._coefficients[i]` before the sign is applied:
`kmin = int((i + 2) / 2)`, `kmax = min(i + 1, N2)`, summed by the inner loop
(stehfest.py lines 55-65). -/
def entry (n2 i : ℕ) : ℚ :=
  (List.range' ((i + 2) / 2) (min (i + 1) n2 + 1 - (i + 2) / 2)).foldl
    (fun acc k => acc + term n2 i k) 0

/-- The outer `for i in range(NV)` loop of `Stehfest._initialize`
(stehfest.py lines 54-67), carrying the running `sign` state: at each index
the sign is negated before use, and the produced entry is
`sign * entry`.  Arguments: `n2`, remaining iteration count, current index
`i`, current `sign`. -/
def coeffLoop (n2 : ℕ) : ℕ → ℕ → ℚ → List ℚ
  | 0, _, _ => []
  | m + 1, i, sign =>
      let s := -sign
      s * entry n2 i :: coeffLoop n2 m (i + 1) s

/-- Embedding of `Stehfest._initialize` (stehfest.py lines 39-67):
`N2 = int(order / 2)` (Python truncating division, `Int.tdiv`),
`NV = 2 * N2`, initial `sign = -1` if `N2` is odd else `1`, then the outer
loop.  For `NV ≤ 0` the Python list `[0.0] * NV` is empty and the loop body
never runs, which `Int.toNat` reproduces. -/
def stehfestInit (order : ℤ) : List ℚ :=
  let N2 : ℤ := Int.tdiv order 2
  let NV : ℤ := 2 * N2
  let sign0 : ℚ := if N2 % 2 ≠ 0 then -1 else 1
  coeffLoop N2.toNat NV.toNat 0 sign0

/-- Embedding of `Stehfest.__init__` (stehfest.py lines 12-19): the
constructor stores the order and runs `_initialize`; it contains no
validation and no failing operation, hence always returns `.ok`. -/
def stehfestConstruct (order : ℤ) : Except PyErr (List ℚ) :=
  .ok (stehfestInit order)

/-- The real-valued coefficient list of a constructed inverter. -/
noncomputable def coefficientsR (order : ℤ) : List ℝ :=
  (stehfestInit order).map (fun q => (q : ℝ))

/-- The `for i in range(len(self._coefficients))` loop of `Stehfest.invert`
(stehfest.py lines 32-34), folding the state `(x, y)` together with the
trace of abscissas passed to `image`. -/
noncomputable def invertLoop (coefficients : List ℝ) (image : ℝ → ℝ) (ln2t : ℝ) :
    (ℝ × ℝ) × List ℝ :=
  coefficients.foldl
    (fun st c =>
      let x := st.1.1 + ln2t
      ((x, st.1.2 + c * image x), st.2 ++ [x]))
    ((0, 0), [])

/-- Embedding of `Stehfest.invert` (stehfest.py lines 21-36), traced.
`ln2t = log(2) / t` raises `ZeroDivisionError` exactly when `t = 0`
(Python float division); no other check exists, so every `t ≠ 0` proceeds
to the loop.  Returns the `Except`-wrapped result together with the list of
abscissas at which `image` was evaluated. -/
noncomputable def stehfestInvertT (coefficients : List ℝ) (image : ℝ → ℝ) (t : ℝ) :
    Except PyErr ℝ × List ℝ :=
  if t = 0 then (.error .zeroDivisionError, [])
  else
    let ln2t := Real.log 2 / t
    let res := invertLoop coefficients image ln2t
    (.ok (ln2t * res.1.2), res.2)

/-- Untraced result of `Stehfest.invert`. -/
noncomputable def stehfestInvert (coefficients : List ℝ) (image : ℝ → ℝ) (t : ℝ) :
    Except PyErr ℝ :=
  (stehfestInvertT coefficients image t).1

end Stehfest

namespace StehfestSpec

/-- Modelled from the words of the specification (spec.md section 4.1): the
claimed closed form for entry `i` of the Stehfest coefficient set of order
`N`: a sign `(-1)^(N2 + i + 1)` (sign starts at `-1` for odd `N2`, else
`+1`, and toggles at the start of each `i` before use) times the sum over
`k` from `⌊(i+2)/2⌋` to `min (i+1) N2` of
`k^N2 / k! * (2k)!/(2k-i-1)! / (N2-k)! / (k-1)! / (i+1-k)!`. -/
def claimEntry (N i : ℕ) : ℚ :=
  let n2 := N / 2
  (-1 : ℚ) ^ (n2 + i + 1) *
    ∑ k ∈ Finset.Icc ((i + 2) / 2) (min (i + 1) n2),
      ((k : ℚ) ^ n2 / (Nat.factorial k : ℚ)) *
        ((Nat.factorial (2 * k) : ℚ) / (Nat.factorial (2 * k - i - 1) : ℚ)) /
        (Nat.factorial (n2 - k) : ℚ) / (Nat.factorial (k - 1) : ℚ) /
        (Nat.factorial (i + 1 - k) : ℚ)

end StehfestSpec

namespace Iseger

/-- The fixed table `ISEGER_COEFFICIENTS_16` (iseger.py lines 10-19):
pairs `(weight factor, abscissa offset)`. -/
noncomputable def ISEGER_COEFFICIENTS_16 : List (ℝ × ℝ) := [
  (1.00000000000000, 0),
  (1.00000000000004, 6.28318530717958),
  (1.00000015116847, 12.5663706962589),
  (1.00081841700481, 18.8502914166954),
  (1.09580332705189, 25.2872172156717),
  (2.00687652338724, 34.2969716635260),
  (5.94277512934943, 56.1725527716607),
  (54.9537264520382, 170.533131190126)]

/-- The fixed table `ISEGER_COEFFICIENTS_32` (iseger.py lines 21-38). -/
noncomputable def ISEGER_COEFFICIENTS_32 : List (ℝ × ℝ) := [
  (1.00000000000000, 0),
  (1.00000000000000, 6.28318530717958),
  (1.00000000000000, 12.5663706143592),
  (1.00000000000000, 18.8495559215388),
  (1.00000000000000, 25.1327412287184),
  (1.00000000000895, 31.4159265359035),
  (1.00000004815464, 37.6991118820067),
  (1.00003440685547, 43.9823334683971),
  (1.00420404867308, 50.2716029125234),
  (1.09319461846681, 56.7584358919044),
  (1.51528642466058, 64.7269529917882),
  (2.41320766467140, 76.7783110023797),
  (4.16688127092229, 96.7780294888711),
  (8.37770013129610, 133.997553190014),
  (23.6054680083019, 222.527562038705),
  (213.824023377988, 669.650134867713)]

/-- The fixed table `ISEGER_COEFFICIENTS_48` (iseger.py lines 40-65). -/
noncomputable def ISEGER_COEFFICIENTS_48 : List (ℝ × ℝ) := [
  (1.00000000000000, 0),
  (1.00000000000000, 6.28318530717957),
  (1.00000000000000, 12.5663706143592),
  (1.00000000000000, 18.8495559215388),
  (1.00000000000000, 25.1327412287183),
  (1.00000000000000, 31.4159265358979),
  (1.00000000000000, 37.6991118430775),
  (1.00000000000000, 43.9822971502571),
  (1.00000000000000, 50.2654824574367),
  (1.00000000000234, 56.5486677646182),
  (1.00000000319553, 62.8318530747628),
  (1.00000128757818, 69.1150398188909),
  (1.00016604436873, 75.3984537709689),
  (1.00682731991922, 81.6938697567735),
  (1.08409730759702, 88.1889420301504),
  (1.36319173228680, 95.7546784637379),
  (1.85773538601497, 105.767553649199),
  (2.59022367414073, 119.58751936774),
  (3.73141804564276, 139.158762677521),
  (5.69232680539143, 168.156165377339),
  (9.54600616545647, 214.521886792255),
  (18.8912132110256, 298.972429369901),
  (52.7884611477405, 497.542914576338),
  (476.4483318696360, 1494.71066227687)]

/-- The `while mm <= number_of_values: mm *= 2` loop of `invert`
(iseger.py lines 100-103).  The `0 < mm` conjunct only serves termination;
it holds on every reachable state since `mm` starts at 2 and doubles. -/
def mmLoop (count : ℕ) (mm : ℕ) : ℕ :=
  if h : 0 < mm ∧ mm ≤ count then mmLoop count (mm * 2) else mm
termination_by count + 1 - mm
decreasing_by omega

/-- Size normalization of `invert` (iseger.py lines 99-108): the loop
starting at `mm = 2`, followed by the (dead) `if mm < number_of_values`
doubling. -/
def normalizeCount (count : ℕ) : ℕ :=
  let mm := mmLoop count 2
  if mm < count then mm * 2 else mm

/-- The complex abscissa passed to the Laplace image for output index `k`
and node `j`: the source computes `z = b + 1j*(coefficients[j][1] +
2*pi*k/m2)` and then `z = critical_abscissa + z / delta_t`
(iseger.py lines 127-128). -/
noncomputable def zArg (delta_t critical_abscissa b : ℝ) (m2 : ℕ)
    (coefficients : List (ℝ × ℝ)) (k j : ℕ) : ℂ :=
  (critical_abscissa : ℂ) +
    ((b : ℂ) + Complex.I *
      (((coefficients.getD j (0, 0)).2 : ℝ) + 2 * Real.pi * k / m2 : ℝ)) /
      (delta_t : ℂ)

/-- The inner `for j in range(int(quadrature_degree / 2))` quadrature loop
(iseger.py lines 126-129), folding the running sum together with the trace
of image arguments. -/
noncomputable def quadLoop (image : ℂ → ℂ) (delta_t critical_abscissa b : ℝ)
    (m2 : ℕ) (coefficients : List (ℝ × ℝ)) (half k : ℕ) : ℝ × List ℂ :=
  (List.range half).foldl
    (fun st j =>
      (st.1 + (coefficients.getD j (0, 0)).1 *
          (image (zArg delta_t critical_abscissa b m2 coefficients k j)).re,
        st.2 ++ [zArg delta_t critical_abscissa b m2 coefficients k j]))
    (0, [])

/-- The outer `for k in range(m2 + 1)` loop computing
`image_values[k] = 2.0 * sum / delta_t` (iseger.py lines 123-131),
collecting the samples and the evaluation trace. -/
noncomputable def sampleLoop (image : ℂ → ℂ) (delta_t critical_abscissa b : ℝ)
    (m2 : ℕ) (coefficients : List (ℝ × ℝ)) (half : ℕ) : List ℝ × List ℂ :=
  (List.range (m2 + 1)).foldl
    (fun st k =>
      (st.1 ++
          [2 * (quadLoop image delta_t critical_abscissa b m2 coefficients half k).1 /
            delta_t],
        st.2 ++ (quadLoop image delta_t critical_abscissa b m2 coefficients half k).2))
    ([], [])

/-- Model of the external primitive `numpy.fft.ifft`, which is documented to
compute the standard inverse discrete Fourier transform
`(1/n) * sum over k of a[k] * exp(2*pi*i*j*k/n)` for an input of length `n`. -/
noncomputable def ifftModel (a : List ℂ) (j : ℕ) : ℂ :=
  (∑ k ∈ Finset.range a.length,
      a.getD k 0 * Complex.exp (2 * Real.pi * Complex.I * j * k / a.length)) /
    (a.length : ℂ)

/-- Embedding of `invert` (iseger.py lines 67-149), traced.  Validation of
`delta_t`, `number_of_values` and `quadrature_degree` happens before any
image evaluation (lines 90-97); then the size normalization, the quadrature
sampling loop, the in-place boundary averaging of sample 0, the inverse FFT
of the first `m2` samples scaled by `m2/2`, and the exponential rescaling
by `exp(b*j [+ ca*j*delta_t]) / m4` over `j < mm` (lines 99-149).  Returns
the `Except`-wrapped result list together with the trace of the complex
abscissas passed to the image. -/
noncomputable def invertT (laplace_image : ℂ → ℂ) (delta_t : ℝ)
    (number_of_values : ℕ) (critical_abscissa : ℝ) (quadrature_degree : ℕ) :
    Except PyErr (List ℝ) × List ℂ :=
  if delta_t ≤ 0 then (.error .arithmeticError, [])
  else if number_of_values < 2 then (.error .arithmeticError, [])
  else if ¬(quadrature_degree = 16 ∨ quadrature_degree = 32 ∨
      quadrature_degree = 48) then (.error .valueError, [])
  else
    let mm := normalizeCount number_of_values
    let m2 := 8 * mm
    let b : ℝ := 44 / (m2 : ℝ)
    let coefficients :=
      if quadrature_degree = 32 then ISEGER_COEFFICIENTS_32
      else if quadrature_degree = 48 then ISEGER_COEFFICIENTS_48
      else ISEGER_COEFFICIENTS_16
    let s := sampleLoop laplace_image delta_t critical_abscissa b m2
      coefficients (quadrature_degree / 2)
    let adjusted := s.1.set 0 ((s.1.getD 0 0 + s.1.getD m2 0) / 2)
    let m4 : ℕ := m2 / 4
    let result := (List.range mm).map fun j : ℕ =>
      (ifftModel ((adjusted.take m2).map (fun x : ℝ => (x : ℂ))) j *
          ((m2 : ℂ) / 2)).re *
        Real.exp (b * j +
          (if 0 < critical_abscissa then critical_abscissa * (j * delta_t)
            else 0)) / (m4 : ℝ)
    (.ok result, s.2)

/-- Untraced result of Iseger's `invert`. -/
noncomputable def invert (laplace_image : ℂ → ℂ) (delta_t : ℝ)
    (number_of_values : ℕ) (critical_abscissa : ℝ) (quadrature_degree : ℕ) :
    Except PyErr (List ℝ) :=
  (invertT laplace_image delta_t number_of_values critical_abscissa
    quadrature_degree).1

end Iseger

namespace IsegerSpec

/-- The claim's image sample at index `k`:
`(2/delta_t) * sum over the first `half` table nodes of weightFactor *
Re(image(criticalAbscissa + (b + i*(abscissaOffset + 2*pi*k/m2))/delta_t))`. -/
noncomputable def imageSample (image : ℂ → ℂ) (delta_t critical_abscissa b : ℝ)
    (m2 : ℕ) (table : List (ℝ × ℝ)) (half k : ℕ) : ℝ :=
  2 / delta_t *
    ∑ j ∈ Finset.range half,
      (table.getD j (0, 0)).1 *
        (image ((critical_abscissa : ℂ) +
          ((b : ℂ) + Complex.I *
            (((table.getD j (0, 0)).2 : ℝ) + 2 * Real.pi * k / m2 : ℝ)) /
            (delta_t : ℂ))).re

/-- The claim's samples after replacing sample 0 by the average of samples
0 and `m2`. -/
noncomputable def adjustedSample (image : ℂ → ℂ)
    (delta_t critical_abscissa b : ℝ) (m2 : ℕ) (table : List (ℝ × ℝ))
    (half k : ℕ) : ℝ :=
  if k = 0 then
    (imageSample image delta_t critical_abscissa b m2 table half 0 +
      imageSample image delta_t critical_abscissa b m2 table half m2) / 2
  else imageSample image delta_t critical_abscissa b m2 table half k

/-- The claim's inverse discrete Fourier transform of the first `m2`
adjusted samples, scaled by `m2/2`. -/
noncomputable def invFFTScaled (image : ℂ → ℂ)
    (delta_t critical_abscissa b : ℝ) (m2 : ℕ) (table : List (ℝ × ℝ))
    (half j : ℕ) : ℂ :=
  ((m2 : ℂ) / 2) * (1 / (m2 : ℂ)) *
    ∑ k ∈ Finset.range m2,
      ((adjustedSample image delta_t critical_abscissa b m2 table half k : ℝ) : ℂ) *
        Complex.exp (2 * Real.pi * Complex.I * j * k / m2)

/-- The claim's output sample at index `j`:
`Re(inverseFFT[j]) * exp(b*j + ca*j*delta_t if ca > 0 else b*j) / m4` with
`m4 = m2/4`. -/
noncomputable def resultSample (image : ℂ → ℂ)
    (delta_t critical_abscissa b : ℝ) (m2 : ℕ) (table : List (ℝ × ℝ))
    (half j : ℕ) : ℝ :=
  (invFFTScaled image delta_t critical_abscissa b m2 table half j).re *
    Real.exp (if 0 < critical_abscissa then
        b * j + critical_abscissa * (j * delta_t)
      else b * j) / ((m2 / 4 : ℕ) : ℝ)

end IsegerSpec

section StehfestLemmas

open Stehfest

/-- Unfolding of an additive fold over `List.range'` into a `Finset.Ico` sum. -/
lemma foldl_add_range' (f : ℕ → ℚ) :
    ∀ (n a : ℕ) (q : ℚ), (List.range' a n).foldl (fun acc k => acc + f k) q =
      q + ∑ k ∈ Finset.Ico a (a + n), f k := by
  intro n
  induction n with
  | zero => intro a q; simp
  | succ m ih =>
      intro a q
      rw [List.range'_succ, List.foldl_cons, ih (a + 1) (q + f a)]
      have hab : a < a + (m + 1) := by omega
      rw [Finset.sum_eq_sum_Ico_succ_bot hab]
      have h1 : a + 1 + m = a + (m + 1) := by omega
      rw [h1, add_assoc]

/-- The accumulated entry equals the `Finset.Icc` sum of the claim. -/
lemma entry_eq_sum (n2 i : ℕ) :
    entry n2 i = ∑ k ∈ Finset.Icc ((i + 2) / 2) (min (i + 1) n2), term n2 i k := by
  unfold entry
  rw [foldl_add_range', zero_add]
  rcases le_or_lt ((i + 2) / 2) (min (i + 1) n2 + 1) with h | h
  · have h2 : (i + 2) / 2 + (min (i + 1) n2 + 1 - (i + 2) / 2) = min (i + 1) n2 + 1 := by
      omega
    rw [h2, Nat.Ico_succ_right]
  · have hn : min (i + 1) n2 + 1 - (i + 2) / 2 = 0 := by omega
    rw [hn, Finset.Icc_eq_empty (by omega)]
    simp

/-- Shape of the outer loop: entry `j` of the produced list is
`(-1)^(j+1) * sign0 * entry (i0 + j)`. -/
lemma coeffLoop_eq (n2 : ℕ) :
    ∀ (m i0 : ℕ) (s : ℚ),
      coeffLoop n2 m i0 s =
        (List.range m).map (fun j => (-1 : ℚ) ^ (j + 1) * s * entry n2 (i0 + j)) := by
  intro m
  induction m with
  | zero => intro i0 s; simp [coeffLoop]
  | succ m ih =>
      intro i0 s
      rw [coeffLoop, List.range_succ_eq_map, List.map_cons, List.map_map,
        ih (i0 + 1) (-s)]
      congr 1
      · simp
      · apply List.map_congr_left
        intro j _
        simp only [Function.comp_apply]
        have harg : i0 + 1 + j = i0 + Nat.succ j := by omega
        rw [harg]
        simp only [Nat.succ_eq_add_one, pow_succ, pow_zero]
        ring

/-- Closed form of `stehfestInit` at a natural-number order: a list of
`2 * (N / 2)` entries, entry `j` being `(-1)^(N/2 + j + 1)` times the inner
sum. -/
lemma stehfestInit_natCast (N : ℕ) :
    stehfestInit (N : ℤ) =
      (List.range (2 * (N / 2))).map
        (fun j => (-1 : ℚ) ^ (N / 2 + j + 1) * entry (N / 2) j) := by
  have hN2 : Int.tdiv (N : ℤ) 2 = ((N / 2 : ℕ) : ℤ) := (Int.ofNat_tdiv N 2).symm
  show coeffLoop (Int.tdiv (N : ℤ) 2).toNat (2 * Int.tdiv (N : ℤ) 2).toNat 0
      (if Int.tdiv (N : ℤ) 2 % 2 ≠ 0 then -1 else 1) = _
  rw [hN2]
  have ht1 : (((N / 2 : ℕ) : ℤ)).toNat = N / 2 := by omega
  have ht2 : ((2 : ℤ) * ((N / 2 : ℕ) : ℤ)).toNat = 2 * (N / 2) := by omega
  rw [ht1, ht2, coeffLoop_eq]
  have hsign : (if ((N / 2 : ℕ) : ℤ) % 2 ≠ 0 then (-1 : ℚ) else 1) =
      (-1 : ℚ) ^ (N / 2) := by
    rcases Nat.even_or_odd (N / 2) with he | ho
    · have he' : N / 2 % 2 = 0 := Nat.even_iff.mp he
      rw [if_neg (by omega), Even.neg_one_pow he]
    · have ho' : N / 2 % 2 = 1 := Nat.odd_iff.mp ho
      rw [if_pos (by omega), Odd.neg_one_pow ho]
  rw [hsign]
  apply List.map_congr_left
  intro j _
  have hp : N / 2 + j + 1 = (j + 1) + N / 2 := by omega
  rw [Nat.zero_add, hp, pow_add]
  ring

/-- The spec's per-entry closed form coincides with the loop entry together
with its effective sign. -/
lemma claimEntry_eq (N j : ℕ) :
    StehfestSpec.claimEntry N j = (-1 : ℚ) ^ (N / 2 + j + 1) * entry (N / 2) j := by
  rw [entry_eq_sum]
  rfl

/-- `Int.tdiv order 2` is nonpositive whenever `order ≤ 1`. -/
lemma tdiv_two_nonpos (a : ℤ) (h : a ≤ 1) : Int.tdiv a 2 ≤ 0 := by
  rcases le_or_lt 0 a with h0 | h0
  · interval_cases a <;> decide
  · have h2 : 0 ≤ Int.tdiv (-a) 2 := Int.tdiv_nonneg (by omega) (by norm_num)
    have h3 := Int.neg_tdiv (-a) 2
    simp only [neg_neg] at h3
    omega

/-- An order of at most one (zero, negative, or one) yields an empty
coefficient list. -/
lemma stehfestInit_of_le_one (order : ℤ) (h : order ≤ 1) :
    stehfestInit order = [] := by
  have h1 : Int.tdiv order 2 ≤ 0 := tdiv_two_nonpos order h
  have h2 : ((2 : ℤ) * Int.tdiv order 2).toNat = 0 := by omega
  show coeffLoop (Int.tdiv order 2).toNat (2 * Int.tdiv order 2).toNat 0
      (if Int.tdiv order 2 % 2 ≠ 0 then -1 else 1) = []
  rw [h2]
  rfl

/-- For an odd order `N ≥ 3` the computed coefficients coincide with those
of order `N - 1`, because `int(N/2)` truncates. -/
lemma stehfestInit_odd (N : ℕ) (h3 : 3 ≤ N) (hodd : N % 2 = 1) :
    stehfestInit (N : ℤ) = stehfestInit ((N : ℤ) - 1) := by
  have hcast : ((N : ℤ)) - 1 = ((N - 1 : ℕ) : ℤ) := by omega
  rw [hcast, stehfestInit_natCast, stehfestInit_natCast]
  have hdiv : N / 2 = (N - 1) / 2 := by omega
  rw [hdiv]

/-- The real coefficient lists of an odd order and its predecessor agree. -/
lemma coefficientsR_odd (N : ℕ) (h3 : 3 ≤ N) (hodd : N % 2 = 1) :
    coefficientsR (N : ℤ) = coefficientsR ((N : ℤ) - 1) := by
  unfold coefficientsR
  rw [stehfestInit_odd N h3 hodd]

/-- Closed form of the invert loop from an arbitrary starting state:
final abscissa, accumulated weighted sum, and trace of image arguments. -/
lemma invertLoop_general (image : ℝ → ℝ) (a : ℝ) :
    ∀ (l : List ℝ) (x0 y0 : ℝ) (tr : List ℝ),
      l.foldl
        (fun st c =>
          let x := st.1.1 + a
          ((x, st.1.2 + c * image x), st.2 ++ [x])) ((x0, y0), tr) =
      ((x0 + l.length * a,
        y0 + ∑ i ∈ Finset.range l.length, l.getD i 0 * image (x0 + (i + 1) * a)),
        tr ++ (List.range l.length).map fun i : ℕ => x0 + ((i : ℝ) + 1) * a) := by
  intro l
  induction l with
  | nil => intro x0 y0 tr; simp
  | cons c l ih =>
      intro x0 y0 tr
      rw [List.foldl_cons]
      simp only []
      rw [ih (x0 + a) (y0 + c * image (x0 + a)) (tr ++ [x0 + a])]
      refine congrArg₂ _ (congrArg₂ _ ?_ ?_) ?_
      · rw [List.length_cons]
        push_cast
        ring
      · rw [List.length_cons, Finset.sum_range_succ']
        have hs : ∀ i ∈ Finset.range l.length,
            (c :: l).getD (i + 1) 0 * image (x0 + (((i + 1 : ℕ) : ℝ) + 1) * a) =
              l.getD i 0 * image (x0 + a + (((i : ℕ) : ℝ) + 1) * a) := by
          intro i _
          have h1 : x0 + (((i + 1 : ℕ) : ℝ) + 1) * a =
              x0 + a + (((i : ℕ) : ℝ) + 1) * a := by
            push_cast
            ring
          rw [List.getD_cons_succ, h1]
        rw [Finset.sum_congr rfl hs, List.getD_cons_zero]
        have h0 : x0 + (((0 : ℕ) : ℝ) + 1) * a = x0 + a := by
          push_cast
          ring
        rw [h0]
        ring
      · rw [List.length_cons, List.range_succ_eq_map, List.map_cons, List.map_map,
          List.append_assoc, List.singleton_append]
        have hhead : x0 + (((0 : ℕ) : ℝ) + 1) * a = x0 + a := by
          push_cast
          ring
        rw [hhead]
        congr 1
        congr 1
        apply List.map_congr_left
        intro i _
        simp only [Function.comp_apply, Nat.succ_eq_add_one]
        push_cast
        ring

/-- Closed form of the traced `Stehfest.invert` for any nonzero time. -/
lemma stehfestInvertT_eq (coefficients : List ℝ) (image : ℝ → ℝ) (t : ℝ)
    (ht : t ≠ 0) :
    stehfestInvertT coefficients image t =
      (.ok (Real.log 2 / t *
          ∑ i ∈ Finset.range coefficients.length,
            coefficients.getD i 0 * image ((i + 1) * (Real.log 2 / t))),
        (List.range coefficients.length).map
          fun i : ℕ => ((i : ℝ) + 1) * (Real.log 2 / t)) := by
  unfold stehfestInvertT invertLoop
  rw [if_neg ht]
  simp only []
  rw [invertLoop_general image (Real.log 2 / t) coefficients 0 0 []]
  simp only [zero_add, List.nil_append]

set_option maxRecDepth 4000 in
/-- Concrete evaluation: order 3 (odd, hence treated like order 2). -/
lemma stehfestInit_three : stehfestInit (3 : ℤ) = [2, -2] := by
  have ht : Int.tdiv 3 2 = 1 := by decide
  simp only [stehfestInit, ht]
  norm_num
  simp only [coeffLoop, entry, term]
  norm_num [List.range', Nat.factorial, show Int.toNat 1 = 1 from rfl]

set_option maxRecDepth 4000 in
/-- Concrete evaluation: order 6. -/
lemma stehfestInit_six :
    stehfestInit (6 : ℤ) = [1, -49, 366, -858, 810, -270] := by
  have ht : Int.tdiv 6 2 = 3 := by decide
  simp only [stehfestInit, ht]
  norm_num
  simp only [coeffLoop, entry, term]
  norm_num [List.range', Nat.factorial, show Int.toNat 3 = 3 from rfl]

end StehfestLemmas

section IsegerLemmas

open Iseger

/-- One unfolding of the size loop when the guard holds. -/
lemma mmLoop_of_le (count mm : ℕ) (h0 : 0 < mm) (h : mm ≤ count) :
    mmLoop count mm = mmLoop count (mm * 2) := by
  rw [mmLoop]
  rw [dif_pos ⟨h0, h⟩]

/-- The size loop stops as soon as the guard fails. -/
lemma mmLoop_of_gt (count mm : ℕ) (h : count < mm) :
    mmLoop count mm = mm := by
  rw [mmLoop]
  rw [dif_neg (by omega)]

/-- Value of the size loop started at a power of two that does not yet
exceed `count`. -/
lemma mmLoop_pow (count : ℕ) (h2 : 2 ≤ count) :
    ∀ d i, Nat.log2 count + 1 - i ≤ d → 2 ^ i ≤ count →
      mmLoop count (2 ^ i) = 2 ^ (Nat.log2 count + 1) := by
  intro d
  induction d with
  | zero =>
      intro i hd hle
      exfalso
      have hcount : count ≠ 0 := by omega
      have h3 : count < 2 ^ (Nat.log2 count + 1) :=
        (Nat.log2_lt hcount).mp (by omega)
      have h4 : 2 ^ (Nat.log2 count + 1) ≤ 2 ^ i :=
        Nat.pow_le_pow_right (by norm_num) (by omega)
      omega
  | succ d ih =>
      intro i hd hle
      rw [mmLoop_of_le count (2 ^ i) (Nat.pos_pow_of_pos i (by norm_num)) hle]
      have hpow : (2 : ℕ) ^ i * 2 = 2 ^ (i + 1) := (pow_succ 2 i).symm
      rw [hpow]
      rcases le_or_lt (2 ^ (i + 1)) count with hle2 | hgt
      · have hcount : count ≠ 0 := by omega
        have hi : i + 1 ≤ Nat.log2 count := (Nat.le_log2 hcount).mpr hle2
        exact ih (i + 1) (by omega) hle2
      · rw [mmLoop_of_gt count _ hgt]
        have hcount : count ≠ 0 := by omega
        have hi1 : i ≤ Nat.log2 count := (Nat.le_log2 hcount).mpr hle
        have hi2 : Nat.log2 count < i + 1 := (Nat.log2_lt hcount).mpr hgt
        have hieq : i = Nat.log2 count := by omega
        rw [hieq]

/-- For every `count ≥ 2`, the normalized length is the smallest power of
two strictly greater than `count`, namely `2 ^ (log2 count + 1)`. -/
lemma normalizeCount_eq (count : ℕ) (h2 : 2 ≤ count) :
    normalizeCount count = 2 ^ (Nat.log2 count + 1) := by
  have hcount : count ≠ 0 := by omega
  have h1 : mmLoop count 2 = 2 ^ (Nat.log2 count + 1) := by
    have := mmLoop_pow count h2 (Nat.log2 count + 1) 1 (by omega)
      (by simpa using h2)
    simpa using this
  unfold normalizeCount
  rw [h1]
  have h3 : count < 2 ^ (Nat.log2 count + 1) :=
    (Nat.log2_lt hcount).mp (by omega)
  rw [if_neg (by omega)]

/-- The inner quadrature fold computes the node sum and the trace of
abscissas. -/
lemma quadLoop_eq (image : ℂ → ℂ) (delta_t critical_abscissa b : ℝ) (m2 : ℕ)
    (table : List (ℝ × ℝ)) (k : ℕ) :
    ∀ half, quadLoop image delta_t critical_abscissa b m2 table half k =
      (∑ j ∈ Finset.range half,
          (table.getD j (0, 0)).1 *
            (image (zArg delta_t critical_abscissa b m2 table k j)).re,
        (List.range half).map (zArg delta_t critical_abscissa b m2 table k)) := by
  intro half
  induction half with
  | zero => simp [quadLoop]
  | succ n ih =>
      unfold quadLoop at ih ⊢
      rw [List.range_succ, List.foldl_append, ih, List.foldl_cons, List.foldl_nil,
        Finset.sum_range_succ, List.map_append]
      simp

/-- A fold that appends one sample and one trace chunk per index. -/
lemma foldl_append_pair (f : ℕ → ℝ) (g : ℕ → List ℂ) :
    ∀ (n : ℕ) (l0 : List ℝ) (t0 : List ℂ),
      (List.range n).foldl (fun st k => (st.1 ++ [f k], st.2 ++ g k)) (l0, t0) =
        (l0 ++ (List.range n).map f, t0 ++ ((List.range n).map g).flatten) := by
  intro n
  induction n with
  | zero => intro l0 t0; simp
  | succ n ih =>
      intro l0 t0
      rw [List.range_succ, List.foldl_append, ih, List.foldl_cons, List.foldl_nil]
      simp [List.flatten_append, List.append_assoc]

/-- The sampling loop produces the mapped sample list and the joined trace. -/
lemma sampleLoop_eq (image : ℂ → ℂ) (delta_t critical_abscissa b : ℝ)
    (m2 : ℕ) (table : List (ℝ × ℝ)) (half : ℕ) :
    sampleLoop image delta_t critical_abscissa b m2 table half =
      ((List.range (m2 + 1)).map
          (fun k => 2 *
            (quadLoop image delta_t critical_abscissa b m2 table half k).1 /
            delta_t),
        ((List.range (m2 + 1)).map
          (fun k =>
            (quadLoop image delta_t critical_abscissa b m2 table half k).2)).flatten) := by
  unfold sampleLoop
  rw [foldl_append_pair
    (fun k => 2 * (quadLoop image delta_t critical_abscissa b m2 table half k).1 /
      delta_t)
    (fun k => (quadLoop image delta_t critical_abscissa b m2 table half k).2)
    (m2 + 1) [] []]
  simp

/-- Element access in a mapped range list. -/
lemma getD_map_range (f : ℕ → ℝ) (n k : ℕ) (hk : k < n) :
    ((List.range n).map f).getD k 0 = f k := by
  rw [List.getD_eq_getElem?_getD, List.getElem?_map, List.getElem?_range hk]
  rfl

/-- Element access after `set 0`. -/
lemma getD_set_zero (l : List ℝ) (v : ℝ) (k : ℕ) (hlen : 0 < l.length) :
    (l.set 0 v).getD k 0 = if k = 0 then v else l.getD k 0 := by
  rcases Nat.eq_zero_or_pos k with hk | hk
  · subst hk
    rw [if_pos rfl, List.getD_eq_getElem?_getD,
      List.getElem?_set_eq_of_lt v hlen]
    rfl
  · rw [if_neg (by omega), List.getD_eq_getElem?_getD,
      List.getElem?_set_ne (by omega), List.getD_eq_getElem?_getD]

/-- Element access after `take` and a cast to `ℂ`, within the taken
prefix. -/
lemma getD_take_map (l : List ℝ) (m k : ℕ) (hk : k < m) :
    ((l.take m).map (fun x : ℝ => (x : ℂ))).getD k 0 =
      ((l.getD k 0 : ℝ) : ℂ) := by
  rw [List.getD_eq_getElem?_getD, List.getElem?_map, List.getElem?_take,
    if_pos hk, List.getD_eq_getElem?_getD]
  rcases l[k]? with _ | x
  · simp
  · simp

/-- Validation: a nonpositive time step fails first. -/
lemma invertT_dt_nonpos (image : ℂ → ℂ) (delta_t : ℝ) (count : ℕ) (ca : ℝ)
    (deg : ℕ) (h : delta_t ≤ 0) :
    invertT image delta_t count ca deg = (.error .arithmeticError, []) := by
  unfold invertT
  rw [if_pos h]

/-- Validation: a count below 2 fails second. -/
lemma invertT_count_lt (image : ℂ → ℂ) (delta_t : ℝ) (count : ℕ) (ca : ℝ)
    (deg : ℕ) (hd : 0 < delta_t) (h : count < 2) :
    invertT image delta_t count ca deg = (.error .arithmeticError, []) := by
  unfold invertT
  rw [if_neg (not_le.mpr hd), if_pos h]

/-- Validation: an unsupported quadrature degree fails third. -/
lemma invertT_bad_degree (image : ℂ → ℂ) (delta_t : ℝ) (count : ℕ) (ca : ℝ)
    (deg : ℕ) (hd : 0 < delta_t) (hc : 2 ≤ count)
    (h : ¬(deg = 16 ∨ deg = 32 ∨ deg = 48)) :
    invertT image delta_t count ca deg = (.error .valueError, []) := by
  unfold invertT
  rw [if_neg (not_le.mpr hd), if_neg (not_lt.mpr hc), if_pos h]

/-- On valid inputs the result is `ok` and has the normalized length. -/
lemma invertT_valid_length (image : ℂ → ℂ) (delta_t : ℝ) (count : ℕ) (ca : ℝ)
    (deg : ℕ) (hd : 0 < delta_t) (hc : 2 ≤ count)
    (hq : deg = 16 ∨ deg = 32 ∨ deg = 48) :
    Except.map List.length (invertT image delta_t count ca deg).1 =
      Except.ok (normalizeCount count) := by
  unfold invertT
  rw [if_neg (not_le.mpr hd), if_neg (not_lt.mpr hc), if_neg (not_not_intro hq)]
  simp [Except.map]

/-- The per-index sample of the source loop equals the claim's image
sample. -/
lemma sample_eq_spec (image : ℂ → ℂ) (delta_t ca b : ℝ) (m2 : ℕ)
    (table : List (ℝ × ℝ)) (half k : ℕ) :
    2 * (quadLoop image delta_t ca b m2 table half k).1 / delta_t =
      IsegerSpec.imageSample image delta_t ca b m2 table half k := by
  rw [quadLoop_eq]
  unfold IsegerSpec.imageSample zArg
  dsimp only
  ring

end IsegerLemmas

/-- C2: for every valid input (`Δt > 0`, `count ≥ 2`, degree in
`{16,32,48}`), Iseger's `invert` computes — with `mm` the normalized output
length, `m2 = 8*mm` and `b = 44/m2` — the image samples
`(2/Δt) * Σ weight * Re(image(ca + (b + i*(offset + 2πk/m2))/Δt))` for
`k ∈ [0, m2]`, replaces sample 0 by the average of samples 0 and `m2`,
applies the inverse DFT to the first `m2` samples scaled by `m2/2`, and
returns `Re(inverseFFT[j]) * exp(b*j + ca*j*Δt if ca > 0 else b*j) / m4`
for `j ∈ [0, mm)` with `m4 = m2/4`. -/
theorem iseger_invert_formula_c2 (image : ℂ → ℂ) (delta_t : ℝ) (count : ℕ)
    (critical_abscissa : ℝ) (quadrature_degree : ℕ) (hd : 0 < delta_t)
    (hc : 2 ≤ count)
    (hq : quadrature_degree = 16 ∨ quadrature_degree = 32 ∨
      quadrature_degree = 48) :
    (Iseger.invertT image delta_t count critical_abscissa quadrature_degree).1 =
      Except.ok ((List.range (Iseger.normalizeCount count)).map
        (IsegerSpec.resultSample image delta_t critical_abscissa
          (44 / ((8 * Iseger.normalizeCount count : ℕ) : ℝ))
          (8 * Iseger.normalizeCount count)
          (if quadrature_degree = 32 then Iseger.ISEGER_COEFFICIENTS_32
            else if quadrature_degree = 48 then Iseger.ISEGER_COEFFICIENTS_48
            else Iseger.ISEGER_COEFFICIENTS_16)
          (quadrature_degree / 2))) := by
  unfold Iseger.invertT
  rw [if_neg (not_le.mpr hd), if_neg (not_lt.mpr hc), if_neg (not_not_intro hq)]
  simp only []
  refine congrArg Except.ok ?_
  apply List.map_congr_left
  intro j hj
  set mm := Iseger.normalizeCount count with hmm
  set m2 := 8 * mm with hm2def
  set b : ℝ := 44 / (m2 : ℝ) with hbdef
  set table := (if quadrature_degree = 32 then Iseger.ISEGER_COEFFICIENTS_32
    else if quadrature_degree = 48 then Iseger.ISEGER_COEFFICIENTS_48
    else Iseger.ISEGER_COEFFICIENTS_16) with htable
  set half := quadrature_degree / 2 with hhalf
  have hmmpos : 0 < mm := by
    rw [hmm, normalizeCount_eq count hc]
    positivity
  have hm2pos : 0 < m2 := by omega
  rw [sampleLoop_eq image delta_t critical_abscissa b m2 table half]
  dsimp only
  set S : ℕ → ℝ :=
    fun k => 2 *
      (Iseger.quadLoop image delta_t critical_abscissa b m2 table half k).1 /
      delta_t with hS
  rw [getD_map_range S (m2 + 1) 0 (by omega),
    getD_map_range S (m2 + 1) m2 (by omega)]
  set v : ℝ := (S 0 + S m2) / 2 with hv
  set L := ((((List.range (m2 + 1)).map S).set 0 v).take m2).map
    (fun x : ℝ => (x : ℂ)) with hL
  have hLlen : L.length = m2 := by
    rw [hL, List.length_map, List.length_take, List.length_set,
      List.length_map, List.length_range]
    omega
  have hLget : ∀ k, k < m2 →
      L.getD k 0 = ((if k = 0 then v else S k : ℝ) : ℂ) := by
    intro k hk
    rw [hL, getD_take_map _ _ _ hk,
      getD_set_zero _ _ _ (by rw [List.length_map, List.length_range]; omega)]
    by_cases hk0 : k = 0
    · rw [if_pos hk0, if_pos hk0]
    · rw [if_neg hk0, if_neg hk0, getD_map_range S (m2 + 1) k (by omega)]
  unfold IsegerSpec.resultSample IsegerSpec.invFFTScaled Iseger.ifftModel
  rw [hLlen]
  have hsum : ∑ k ∈ Finset.range m2,
        L.getD k 0 * Complex.exp (2 * Real.pi * Complex.I * j * k / m2) =
      ∑ k ∈ Finset.range m2,
        ((IsegerSpec.adjustedSample image delta_t critical_abscissa b m2 table
            half k : ℝ) : ℂ) *
          Complex.exp (2 * Real.pi * Complex.I * j * k / m2) := by
    refine Finset.sum_congr rfl fun k hk => ?_
    rw [hLget k (Finset.mem_range.mp hk)]
    refine congrArg₂ _ (congrArg _ ?_) rfl
    unfold IsegerSpec.adjustedSample
    by_cases hk0 : k = 0
    · rw [if_pos hk0, if_pos hk0, hv]
      simp only [hS]
      rw [sample_eq_spec, sample_eq_spec]
    · rw [if_neg hk0, if_neg hk0]
      simp only [hS]
      rw [sample_eq_spec]
  rw [hsum]
  have hre : (∑ k ∈ Finset.range m2,
        ((IsegerSpec.adjustedSample image delta_t critical_abscissa b m2 table
            half k : ℝ) : ℂ) *
          Complex.exp (2 * Real.pi * Complex.I * j * k / m2)) / (m2 : ℂ) *
        ((m2 : ℂ) / 2) =
      ((m2 : ℂ) / 2) * (1 / (m2 : ℂ)) *
        ∑ k ∈ Finset.range m2,
          ((IsegerSpec.adjustedSample image delta_t critical_abscissa b m2 table
              half k : ℝ) : ℂ) *
            Complex.exp (2 * Real.pi * Complex.I * j * k / m2) := by
    ring
  rw [hre]
  have hexp : b * j +
      (if 0 < critical_abscissa then critical_abscissa * (j * delta_t) else 0) =
      (if 0 < critical_abscissa then b * j + critical_abscissa * (j * delta_t)
        else b * j) := by
    split_ifs
    · ring
    · ring
  rw [hexp]

/-- Witness for C2 at a concrete valid configuration. -/
theorem iseger_invert_formula_c2_witness :
    ((0 : ℝ) < 1 ∧ 2 ≤ 2 ∧
        ((16 : ℕ) = 16 ∨ (16 : ℕ) = 32 ∨ (16 : ℕ) = 48)) ∧
      (Iseger.invertT (fun _ => 0) 1 2 0 16).1 =
        Except.ok ((List.range (Iseger.normalizeCount 2)).map
          (IsegerSpec.resultSample (fun _ => 0) 1 0
            (44 / ((8 * Iseger.normalizeCount 2 : ℕ) : ℝ))
            (8 * Iseger.normalizeCount 2)
            (if (16 : ℕ) = 32 then Iseger.ISEGER_COEFFICIENTS_32
              else if (16 : ℕ) = 48 then Iseger.ISEGER_COEFFICIENTS_48
              else Iseger.ISEGER_COEFFICIENTS_16)
            (16 / 2))) :=
  ⟨⟨by norm_num, by norm_num, by norm_num⟩,
    iseger_invert_formula_c2 (fun _ => 0) 1 2 0 16 (by norm_num) (by norm_num)
      (by norm_num)⟩

/-- C6: invalid configuration (`Δt ≤ 0`, or `count < 2`, or a quadrature
degree outside `{16,32,48}`) makes Iseger's `invert` fail synchronously,
before any image evaluation: the result is an error and the evaluation
trace is empty. -/
theorem iseger_validation_c6 (image : ℂ → ℂ) (delta_t : ℝ) (count : ℕ)
    (ca : ℝ) (deg : ℕ)
    (h : delta_t ≤ 0 ∨ count < 2 ∨ ¬(deg = 16 ∨ deg = 32 ∨ deg = 48)) :
    (Iseger.invertT image delta_t count ca deg).1.isOk = false ∧
      (Iseger.invertT image delta_t count ca deg).2 = [] := by
  rcases h with h | h | h
  · rw [invertT_dt_nonpos image delta_t count ca deg h]
    exact ⟨rfl, rfl⟩
  · rcases le_or_lt delta_t 0 with hd | hd
    · rw [invertT_dt_nonpos image delta_t count ca deg hd]
      exact ⟨rfl, rfl⟩
    · rw [invertT_count_lt image delta_t count ca deg hd h]
      exact ⟨rfl, rfl⟩
  · rcases le_or_lt delta_t 0 with hd | hd
    · rw [invertT_dt_nonpos image delta_t count ca deg hd]
      exact ⟨rfl, rfl⟩
    · rcases lt_or_le count 2 with hc | hc
      · rw [invertT_count_lt image delta_t count ca deg hd hc]
        exact ⟨rfl, rfl⟩
      · rw [invertT_bad_degree image delta_t count ca deg hd hc h]
        exact ⟨rfl, rfl⟩

/-- Witness for C6 at the claim's concrete instance
`Δt = 0.1, count = 10, degree = 24`. -/
theorem iseger_validation_c6_witness :
    ((0.1 : ℝ) ≤ 0 ∨ (10 : ℕ) < 2 ∨
        ¬((24 : ℕ) = 16 ∨ (24 : ℕ) = 32 ∨ (24 : ℕ) = 48)) ∧
      ((Iseger.invertT (fun _ => 0) (0.1 : ℝ) 10 0 24).1.isOk = false ∧
        (Iseger.invertT (fun _ => 0) (0.1 : ℝ) 10 0 24).2 = []) :=
  ⟨Or.inr (Or.inr (by norm_num)),
    iseger_validation_c6 (fun _ => 0) (0.1 : ℝ) 10 0 24
      (Or.inr (Or.inr (by norm_num)))⟩

/-- C1: for every even order `N ≥ 2`, the coefficient set built at
construction has exactly `2 * ⌊N/2⌋` entries, entry `i` equals the
sign-adjusted sum of the claim (sign `(-1)^(N2+i+1)`, i.e. starting at `-1`
for odd `N2` else `+1` and toggling before use), and repeated construction
yields the same coefficients. -/
theorem stehfest_coefficient_set_c1 (N : ℕ) (h2 : 2 ≤ N) (heven : N % 2 = 0) :
    Stehfest.stehfestInit (N : ℤ) =
        (List.range (2 * (N / 2))).map (StehfestSpec.claimEntry N) ∧
      (Stehfest.stehfestInit (N : ℤ)).length = 2 * (N / 2) ∧
      Stehfest.stehfestConstruct (N : ℤ) =
        Except.ok (Stehfest.stehfestInit (N : ℤ)) := by
  refine ⟨?_, ?_, rfl⟩
  · rw [stehfestInit_natCast]
    apply List.map_congr_left
    intro j _
    exact (claimEntry_eq N j).symm
  · rw [stehfestInit_natCast, List.length_map, List.length_range]

/-- Witness for C1 at the concrete order `N = 6`. -/
theorem stehfest_coefficient_set_c1_witness :
    (2 ≤ 6 ∧ 6 % 2 = 0) ∧
      (Stehfest.stehfestInit ((6 : ℕ) : ℤ) =
          (List.range (2 * (6 / 2))).map (StehfestSpec.claimEntry 6) ∧
        (Stehfest.stehfestInit ((6 : ℕ) : ℤ)).length = 2 * (6 / 2) ∧
        Stehfest.stehfestConstruct ((6 : ℕ) : ℤ) =
          Except.ok (Stehfest.stehfestInit ((6 : ℕ) : ℤ))) :=
  ⟨⟨by norm_num, by norm_num⟩,
    stehfest_coefficient_set_c1 6 (by norm_num) (by norm_num)⟩

/-- C3: for every coefficient set and every `t > 0`, the traced
`Stehfest.invert` returns `ln 2 / t` times the weighted sum of image values
at the abscissas `(i+1) * ln 2 / t`, and evaluates the image exactly once
per coefficient (`NV` calls, at `ln2t, 2 ln2t, 3 ln2t, ...`); the result is
a pure function of its arguments, so nothing is cached across calls. -/
theorem stehfest_invert_formula_c3 (coefficients : List ℝ) (image : ℝ → ℝ)
    (t : ℝ) (ht : 0 < t) :
    Stehfest.stehfestInvertT coefficients image t =
        (Except.ok (Real.log 2 / t *
            ∑ i ∈ Finset.range coefficients.length,
              coefficients.getD i 0 * image ((i + 1) * (Real.log 2 / t))),
          (List.range coefficients.length).map
            fun i : ℕ => ((i : ℝ) + 1) * (Real.log 2 / t)) ∧
      (Stehfest.stehfestInvertT coefficients image t).2.length =
        coefficients.length := by
  have h := stehfestInvertT_eq coefficients image t (ne_of_gt ht)
  refine ⟨h, ?_⟩
  rw [h]
  simp

/-- Witness for C3 with a concrete coefficient list, image and time. -/
theorem stehfest_invert_formula_c3_witness :
    0 < (1 : ℝ) ∧
      (Stehfest.stehfestInvertT [(1 : ℝ), 2] (fun _ => 3) 1 =
          (Except.ok (Real.log 2 / 1 *
              ∑ i ∈ Finset.range ([(1 : ℝ), 2].length),
                [(1 : ℝ), 2].getD i 0 * (fun _ : ℝ => (3 : ℝ))
                  ((i + 1) * (Real.log 2 / 1))),
            (List.range ([(1 : ℝ), 2].length)).map
              fun i : ℕ => ((i : ℝ) + 1) * (Real.log 2 / 1)) ∧
        (Stehfest.stehfestInvertT [(1 : ℝ), 2] (fun _ => 3) 1).2.length =
          [(1 : ℝ), 2].length) :=
  ⟨by norm_num,
    stehfest_invert_formula_c3 [(1 : ℝ), 2] (fun _ => 3) 1 (by norm_num)⟩

/-- C5 counterexample: with the order-6 inverter and the constant image 1,
`invert` at `t = -1` does not fail — it returns an `ok` value and evaluates
the image 6 times — refuting the claim that every `t ≤ 0` fails with a
domain error and zero image evaluations. -/
theorem stehfest_negative_time_c5_counterexample :
    (Stehfest.stehfestInvertT (Stehfest.coefficientsR 6)
        (fun _ => 1) (-1)).1.isOk = true ∧
      (Stehfest.stehfestInvertT (Stehfest.coefficientsR 6)
        (fun _ => 1) (-1)).2.length = 6 := by
  have h := stehfestInvertT_eq (Stehfest.coefficientsR 6) (fun _ => 1) (-1)
    (by norm_num)
  constructor
  · rw [h]
    rfl
  · rw [h]
    simp [Stehfest.coefficientsR, stehfestInit_six]

/-- C5 amended: `Stehfest.invert` fails only at `t = 0` (the Python
`ZeroDivisionError` from `log(2)/t`), with zero image evaluations; for every
`t ≠ 0` — including negative times such as `t = -1` — no error is raised:
the call succeeds and evaluates the image exactly once per coefficient. -/
theorem stehfest_time_domain_c5_amended (coefficients : List ℝ)
    (image : ℝ → ℝ) (t : ℝ) (ht : t ≠ 0) :
    Stehfest.stehfestInvertT coefficients image 0 =
        (Except.error PyErr.zeroDivisionError, []) ∧
      (Stehfest.stehfestInvertT coefficients image t).1.isOk = true ∧
      (Stehfest.stehfestInvertT coefficients image t).2.length =
        coefficients.length := by
  refine ⟨?_, ?_, ?_⟩
  · unfold Stehfest.stehfestInvertT
    rw [if_pos rfl]
  · rw [stehfestInvertT_eq coefficients image t ht]
    rfl
  · rw [stehfestInvertT_eq coefficients image t ht]
    simp

/-- Witness for the amended C5 at `t = -1`. -/
theorem stehfest_time_domain_c5_amended_witness :
    (-1 : ℝ) ≠ 0 ∧
      (Stehfest.stehfestInvertT [(1 : ℝ)] (fun _ => 0) 0 =
          (Except.error PyErr.zeroDivisionError, []) ∧
        (Stehfest.stehfestInvertT [(1 : ℝ)] (fun _ => 0) (-1)).1.isOk = true ∧
        (Stehfest.stehfestInvertT [(1 : ℝ)] (fun _ => 0) (-1)).2.length =
          [(1 : ℝ)].length) :=
  ⟨by norm_num,
    stehfest_time_domain_c5_amended [(1 : ℝ)] (fun _ => 0) (-1) (by norm_num)⟩

/-- C7 counterexample: constructing with the invalid orders 0 and 3 does
not fail — both constructions succeed (order 0 with an empty coefficient
list, order 3 with the order-2 coefficients), refuting the claim that an
invalid order fails with a configuration error at construction time. -/
theorem stehfest_invalid_order_c7_counterexample :
    Stehfest.stehfestConstruct 0 = Except.ok [] ∧
      Stehfest.stehfestConstruct 3 = Except.ok [2, -2] := by
  constructor
  · show Except.ok (Stehfest.stehfestInit 0) = _
    rw [stehfestInit_of_le_one 0 (by norm_num)]
  · show Except.ok (Stehfest.stehfestInit 3) = _
    rw [stehfestInit_three]

/-- C7 amended: constructing a Stehfest inverter never fails for any
integer order (the constructor performs no validation); a valid positive
even order yields a ready-to-use inverter whose precomputed coefficient
list has length equal to the order, while orders at most 1 (zero, one, or
negative) yield an empty coefficient list. -/
theorem stehfest_construct_c7_amended (order : ℤ) (N : ℕ) (h2 : 2 ≤ N)
    (heven : N % 2 = 0) :
    Stehfest.stehfestConstruct order = Except.ok (Stehfest.stehfestInit order) ∧
      (order ≤ 1 → Stehfest.stehfestInit order = []) ∧
      (Stehfest.stehfestInit (N : ℤ)).length = N := by
  refine ⟨rfl, fun h => stehfestInit_of_le_one order h, ?_⟩
  rw [stehfestInit_natCast, List.length_map, List.length_range]
  omega

/-- Witness for the amended C7 at order `-4` (invalid) and `N = 6`. -/
theorem stehfest_construct_c7_amended_witness :
    (2 ≤ 6 ∧ 6 % 2 = 0) ∧
      (Stehfest.stehfestConstruct (-4) =
          Except.ok (Stehfest.stehfestInit (-4)) ∧
        ((-4 : ℤ) ≤ 1 → Stehfest.stehfestInit (-4) = []) ∧
        (Stehfest.stehfestInit ((6 : ℕ) : ℤ)).length = 6) :=
  ⟨⟨by norm_num, by norm_num⟩,
    stehfest_construct_c7_amended (-4) 6 (by norm_num) (by norm_num)⟩

/-- C4 counterexample: at `count = 16` (a power of two) the claimed output
length `roundUpToPowerOfTwo(16) = 16` (`16` is itself a power of two at
least `16`) disagrees with the code, which returns 32 samples. -/
theorem iseger_output_length_c4_counterexample :
    Except.map List.length (Iseger.invertT (fun _ => 0) 1 16 0 16).1 =
        Except.ok 32 ∧
      (2 : ℕ) ^ 4 = 16 ∧ (16 : ℕ) ≤ 2 ^ 4 ∧ (32 : ℕ) ≠ 16 := by
  refine ⟨?_, by norm_num, by norm_num, by norm_num⟩
  rw [invertT_valid_length (fun _ => 0) 1 16 0 16 (by norm_num) (by norm_num)
    (by norm_num), normalizeCount_eq 16 (by norm_num)]
  have h1 : 4 ≤ Nat.log2 16 := (Nat.le_log2 (by norm_num)).mpr (by norm_num)
  have h2 : Nat.log2 16 < 5 := (Nat.log2_lt (by norm_num)).mpr (by norm_num)
  have h3 : Nat.log2 16 = 4 := by omega
  rw [h3]
  norm_num

/-- C4 amended: for every valid `count ≥ 2`, Iseger's `invert` returns an
ordered sequence of exactly `2 ^ (log2 count + 1)` real samples — the
smallest power of two STRICTLY greater than `count` (not the next power of
two at least `count`); in particular `count = 20` still yields exactly 32
samples. -/
theorem iseger_output_length_c4_amended (image : ℂ → ℂ) (delta_t : ℝ)
    (count : ℕ) (ca : ℝ) (deg : ℕ) (hd : 0 < delta_t) (hc : 2 ≤ count)
    (hq : deg = 16 ∨ deg = 32 ∨ deg = 48) :
    Except.map List.length (Iseger.invertT image delta_t count ca deg).1 =
        Except.ok (2 ^ (Nat.log2 count + 1)) ∧
      count < 2 ^ (Nat.log2 count + 1) := by
  constructor
  · rw [invertT_valid_length image delta_t count ca deg hd hc hq,
      normalizeCount_eq count hc]
  · exact (Nat.log2_lt (by omega)).mp (by omega)

/-- Witness for the amended C4 at `count = 20`, giving 32 samples. -/
theorem iseger_output_length_c4_amended_witness :
    ((0 : ℝ) < 1 ∧ 2 ≤ 20 ∧
        ((16 : ℕ) = 16 ∨ (16 : ℕ) = 32 ∨ (16 : ℕ) = 48)) ∧
      (Except.map List.length (Iseger.invertT (fun _ => 0) 1 20 0 16).1 =
          Except.ok (2 ^ (Nat.log2 20 + 1)) ∧
        20 < 2 ^ (Nat.log2 20 + 1)) ∧
      (2 : ℕ) ^ (Nat.log2 20 + 1) = 32 := by
  refine ⟨⟨by norm_num, by norm_num, by norm_num⟩,
    iseger_output_length_c4_amended (fun _ => 0) 1 20 0 16 (by norm_num)
      (by norm_num) (by norm_num), ?_⟩
  have h1 : 4 ≤ Nat.log2 20 := (Nat.le_log2 (by norm_num)).mpr (by norm_num)
  have h2 : Nat.log2 20 < 5 := (Nat.log2_lt (by norm_num)).mpr (by norm_num)
  have h3 : Nat.log2 20 = 4 := by omega
  rw [h3]
  norm_num

/-- C9: for every valid input, the normalized length `mm` is the smallest
power of two strictly greater than `count` — it is a power of two, exceeds
`count`, and its predecessor power `2 ^ log2 count` does not — and the
returned sequence has exactly `mm` samples (so a power-of-two `count` yields
`2 * count` samples, not `count`). -/
theorem iseger_normalization_c9 (image : ℂ → ℂ) (delta_t : ℝ) (count : ℕ)
    (ca : ℝ) (deg : ℕ) (hd : 0 < delta_t) (hc : 2 ≤ count)
    (hq : deg = 16 ∨ deg = 32 ∨ deg = 48) :
    Iseger.normalizeCount count = 2 ^ (Nat.log2 count + 1) ∧
      count < 2 ^ (Nat.log2 count + 1) ∧
      2 ^ Nat.log2 count ≤ count ∧
      Except.map List.length (Iseger.invertT image delta_t count ca deg).1 =
        Except.ok (Iseger.normalizeCount count) := by
  have hne : count ≠ 0 := by omega
  exact ⟨normalizeCount_eq count hc, (Nat.log2_lt hne).mp (by omega),
    (Nat.le_log2 hne).mp (le_refl _),
    invertT_valid_length image delta_t count ca deg hd hc hq⟩

/-- Witness for C9 at the power-of-two `count = 16`: 32 samples, twice the
requested count. -/
theorem iseger_normalization_c9_witness :
    ((0 : ℝ) < 1 ∧ 2 ≤ 16 ∧
        ((16 : ℕ) = 16 ∨ (16 : ℕ) = 32 ∨ (16 : ℕ) = 48)) ∧
      (Iseger.normalizeCount 16 = 2 ^ (Nat.log2 16 + 1) ∧
        16 < 2 ^ (Nat.log2 16 + 1) ∧
        2 ^ Nat.log2 16 ≤ 16 ∧
        Except.map List.length (Iseger.invertT (fun _ => 0) 1 16 0 16).1 =
          Except.ok (Iseger.normalizeCount 16)) ∧
      (2 : ℕ) ^ (Nat.log2 16 + 1) = 2 * 16 := by
  refine ⟨⟨by norm_num, by norm_num, by norm_num⟩,
    iseger_normalization_c9 (fun _ => 0) 1 16 0 16 (by norm_num) (by norm_num)
      (by norm_num), ?_⟩
  have h1 : 4 ≤ Nat.log2 16 := (Nat.le_log2 (by norm_num)).mpr (by norm_num)
  have h2 : Nat.log2 16 < 5 := (Nat.log2_lt (by norm_num)).mpr (by norm_num)
  have h3 : Nat.log2 16 = 4 := by omega
  rw [h3]
  norm_num

/-- C10: every odd order `N ≥ 3` is accepted without error and produces
exactly the coefficients of order `N - 1` (because `int(N/2)` truncates),
so the two inverters agree on every image and every `t > 0`. -/
theorem stehfest_odd_order_c10 (N : ℕ) (image : ℝ → ℝ) (t : ℝ)
    (h3 : 3 ≤ N) (hodd : N % 2 = 1) (ht : 0 < t) :
    Stehfest.stehfestConstruct (N : ℤ) =
        Except.ok (Stehfest.stehfestInit (N : ℤ)) ∧
      Stehfest.stehfestInit (N : ℤ) = Stehfest.stehfestInit ((N : ℤ) - 1) ∧
      Stehfest.stehfestInvertT (Stehfest.coefficientsR (N : ℤ)) image t =
        Stehfest.stehfestInvertT (Stehfest.coefficientsR ((N : ℤ) - 1)) image t := by
  refine ⟨rfl, stehfestInit_odd N h3 hodd, ?_⟩
  rw [coefficientsR_odd N h3 hodd]

/-- Witness for C10 at the concrete order `N = 3`. -/
theorem stehfest_odd_order_c10_witness :
    (3 ≤ 3 ∧ 3 % 2 = 1 ∧ (0 : ℝ) < 1) ∧
      (Stehfest.stehfestConstruct ((3 : ℕ) : ℤ) =
          Except.ok (Stehfest.stehfestInit ((3 : ℕ) : ℤ)) ∧
        Stehfest.stehfestInit ((3 : ℕ) : ℤ) =
          Stehfest.stehfestInit (((3 : ℕ) : ℤ) - 1) ∧
        Stehfest.stehfestInvertT (Stehfest.coefficientsR ((3 : ℕ) : ℤ))
            (fun _ => 0) 1 =
          Stehfest.stehfestInvertT (Stehfest.coefficientsR (((3 : ℕ) : ℤ) - 1))
            (fun _ => 0) 1) :=
  ⟨⟨by norm_num, by norm_num, by norm_num⟩,
    stehfest_odd_order_c10 3 (fun _ => 0) 1 (by norm_num) (by norm_num)
      (by norm_num)⟩

section AccuracyLemmas

/-- Lower interval bound for a nonnegative numerator over an increasing
positive denominator `1 + a * L` with `L` in `[lo, hi]`. -/
lemma term_bounds_pos {lo hi L : ℝ} (hlo : lo ≤ L) (hhi : L ≤ hi) (c a : ℝ)
    (hc : 0 ≤ c) (ha : 0 < a) (hpos : 0 < 1 + a * lo) :
    c / (1 + a * hi) ≤ c / (1 + a * L) ∧ c / (1 + a * L) ≤ c / (1 + a * lo) := by
  have hdL : 0 < 1 + a * L := by nlinarith
  constructor
  · exact div_le_div_of_nonneg_left hc hdL (by nlinarith)
  · exact div_le_div_of_nonneg_left hc hpos (by nlinarith)

/-- Interval bound for a nonpositive numerator over a positive denominator
`1 + a * L` with `L` in `[lo, hi]`. -/
lemma term_bounds_neg {lo hi L : ℝ} (hlo : lo ≤ L) (hhi : L ≤ hi) (c a : ℝ)
    (hc : c ≤ 0) (ha : 0 < a) (hpos : 0 < 1 + a * lo) :
    c / (1 + a * lo) ≤ c / (1 + a * L) ∧ c / (1 + a * L) ≤ c / (1 + a * hi) := by
  have hdL : 0 < 1 + a * L := by nlinarith
  constructor
  · have h1 := div_le_div_of_nonneg_left (neg_nonneg.mpr hc) hpos
      (by nlinarith : 1 + a * lo ≤ 1 + a * L)
    rw [neg_div, neg_div] at h1
    linarith
  · have h1 := div_le_div_of_nonneg_left (neg_nonneg.mpr hc) hdL
      (by nlinarith : 1 + a * L ≤ 1 + a * hi)
    rw [neg_div, neg_div] at h1
    linarith

set_option maxRecDepth 8000 in
/-- The exact value of the 64-term partial sum of the series for `log 2`. -/
lemma sum64 : ∑ i ∈ Finset.range 64, ((1 : ℝ)/2) ^ (i + 1) / ((i : ℝ) + 1) =
    3023365856228144500681042094895944098787640077 /
      4361794927573358792789214461006653544328069120 := by
  norm_num [Finset.sum_range_succ]

/-- Tight rational bounds on `log 2`, obtained from the alternating series
remainder bound of Mathlib applied at 64 terms. -/
lemma log_two_bounds :
    (0.6931471805599453092 : ℝ) ≤ Real.log 2 ∧
      Real.log 2 ≤ (0.6931471805599453096 : ℝ) := by
  have habs12 : |(1/2 : ℝ)| = 1/2 := abs_of_pos (by norm_num)
  have h := Real.abs_log_sub_add_sum_range_le (x := 1/2) (by rw [habs12]; norm_num) 64
  rw [sum64] at h
  have hlog : Real.log (1 - 1/2 : ℝ) = - Real.log 2 := by
    rw [show (1 - 1/2 : ℝ) = 2⁻¹ by norm_num, Real.log_inv]
  rw [hlog, habs12] at h
  have hb : (1/2 : ℝ) ^ (64 + 1) / (1 - 1/2) = (1/2 : ℝ) ^ 64 := by
    norm_num
  rw [hb, abs_le] at h
  constructor <;> nlinarith [h.1, h.2]

/-- Rational bounds on `exp (-1)`, from the d9 bounds on `exp 1`. -/
lemma exp_neg_one_bounds :
    (10000000000/27182818286 : ℝ) < Real.exp (-1) ∧
      Real.exp (-1) < (10000000000/27182818283 : ℝ) := by
  rw [Real.exp_neg, inv_eq_one_div]
  constructor
  · have h := Real.exp_one_lt_d9
    have h2 : (1 : ℝ)/2.7182818286 < 1/Real.exp 1 :=
      one_div_lt_one_div_of_lt (Real.exp_pos 1) h
    have h3 : (10000000000/27182818286 : ℝ) = 1/2.7182818286 := by norm_num
    linarith
  · have h := Real.exp_one_gt_d9
    have h2 : (1 : ℝ)/Real.exp 1 < 1/2.7182818283 :=
      one_div_lt_one_div_of_lt (by norm_num) h
    have h3 : (10000000000/27182818283 : ℝ) = 1/2.7182818283 := by norm_num
    linarith

set_option maxHeartbeats 1000000 in
/-- Interval-arithmetic bound: the exact order-14 Stehfest value at `t = 1`
for the image `1/(1+p)` lies within `1e-6` of `exp (-1)`. -/
lemma c8_core {L : ℝ} (hlo : (0.6931471805599453092 : ℝ) ≤ L)
    (hhi : L ≤ (0.6931471805599453096 : ℝ)) :
    |L * ((1/360)/(1+1*L) +
      (-461/72)/(1+2*L) +
      (18481/20)/(1+3*L) +
      (-6227627/180)/(1+4*L) +
      (4862890/9)/(1+5*L) +
      (-131950391/30)/(1+6*L) +
      (189788326/9)/(1+7*L) +
      (-2877521087/45)/(1+8*L) +
      (2551951591/20)/(1+9*L) +
      (-2041646257/12)/(1+10*L) +
      (4509824011/30)/(1+11*L) +
      (-169184323/2)/(1+12*L) +
      (824366543/30)/(1+13*L) +
      (-117766649/30)/(1+14*L)) - Real.exp (-1)| < 1/1000000 := by
  have hb0 := term_bounds_pos hlo hhi ((1/360) : ℝ) 1 (by norm_num) (by norm_num) (by norm_num)
  have hb1 := term_bounds_neg hlo hhi ((-461/72) : ℝ) 2 (by norm_num) (by norm_num) (by norm_num)
  have hb2 := term_bounds_pos hlo hhi ((18481/20) : ℝ) 3 (by norm_num) (by norm_num) (by norm_num)
  have hb3 := term_bounds_neg hlo hhi ((-6227627/180) : ℝ) 4 (by norm_num) (by norm_num) (by norm_num)
  have hb4 := term_bounds_pos hlo hhi ((4862890/9) : ℝ) 5 (by norm_num) (by norm_num) (by norm_num)
  have hb5 := term_bounds_neg hlo hhi ((-131950391/30) : ℝ) 6 (by norm_num) (by norm_num) (by norm_num)
  have hb6 := term_bounds_pos hlo hhi ((189788326/9) : ℝ) 7 (by norm_num) (by norm_num) (by norm_num)
  have hb7 := term_bounds_neg hlo hhi ((-2877521087/45) : ℝ) 8 (by norm_num) (by norm_num) (by norm_num)
  have hb8 := term_bounds_pos hlo hhi ((2551951591/20) : ℝ) 9 (by norm_num) (by norm_num) (by norm_num)
  have hb9 := term_bounds_neg hlo hhi ((-2041646257/12) : ℝ) 10 (by norm_num) (by norm_num) (by norm_num)
  have hb10 := term_bounds_pos hlo hhi ((4509824011/30) : ℝ) 11 (by norm_num) (by norm_num) (by norm_num)
  have hb11 := term_bounds_neg hlo hhi ((-169184323/2) : ℝ) 12 (by norm_num) (by norm_num) (by norm_num)
  have hb12 := term_bounds_pos hlo hhi ((824366543/30) : ℝ) 13 (by norm_num) (by norm_num) (by norm_num)
  have hb13 := term_bounds_neg hlo hhi ((-117766649/30) : ℝ) 14 (by norm_num) (by norm_num) (by norm_num)
  have hS_lo : ((1/360)/(1+1*0.6931471805599453096) +
      (-461/72)/(1+2*0.6931471805599453092) +
      (18481/20)/(1+3*0.6931471805599453096) +
      (-6227627/180)/(1+4*0.6931471805599453092) +
      (4862890/9)/(1+5*0.6931471805599453096) +
      (-131950391/30)/(1+6*0.6931471805599453092) +
      (189788326/9)/(1+7*0.6931471805599453096) +
      (-2877521087/45)/(1+8*0.6931471805599453092) +
      (2551951591/20)/(1+9*0.6931471805599453096) +
      (-2041646257/12)/(1+10*0.6931471805599453092) +
      (4509824011/30)/(1+11*0.6931471805599453096) +
      (-169184323/2)/(1+12*0.6931471805599453092) +
      (824366543/30)/(1+13*0.6931471805599453096) +
      (-117766649/30)/(1+14*0.6931471805599453092) : ℝ) ≤
      ((1/360)/(1+1*L) +
      (-461/72)/(1+2*L) +
      (18481/20)/(1+3*L) +
      (-6227627/180)/(1+4*L) +
      (4862890/9)/(1+5*L) +
      (-131950391/30)/(1+6*L) +
      (189788326/9)/(1+7*L) +
      (-2877521087/45)/(1+8*L) +
      (2551951591/20)/(1+9*L) +
      (-2041646257/12)/(1+10*L) +
      (4509824011/30)/(1+11*L) +
      (-169184323/2)/(1+12*L) +
      (824366543/30)/(1+13*L) +
      (-117766649/30)/(1+14*L)) := by
    linarith [hb0.1, hb1.1, hb2.1, hb3.1, hb4.1, hb5.1, hb6.1, hb7.1, hb8.1, hb9.1, hb10.1, hb11.1, hb12.1, hb13.1]
  have hS_hi : ((1/360)/(1+1*L) +
      (-461/72)/(1+2*L) +
      (18481/20)/(1+3*L) +
      (-6227627/180)/(1+4*L) +
      (4862890/9)/(1+5*L) +
      (-131950391/30)/(1+6*L) +
      (189788326/9)/(1+7*L) +
      (-2877521087/45)/(1+8*L) +
      (2551951591/20)/(1+9*L) +
      (-2041646257/12)/(1+10*L) +
      (4509824011/30)/(1+11*L) +
      (-169184323/2)/(1+12*L) +
      (824366543/30)/(1+13*L) +
      (-117766649/30)/(1+14*L) : ℝ) ≤
      ((1/360)/(1+1*0.6931471805599453092) +
      (-461/72)/(1+2*0.6931471805599453096) +
      (18481/20)/(1+3*0.6931471805599453092) +
      (-6227627/180)/(1+4*0.6931471805599453096) +
      (4862890/9)/(1+5*0.6931471805599453092) +
      (-131950391/30)/(1+6*0.6931471805599453096) +
      (189788326/9)/(1+7*0.6931471805599453092) +
      (-2877521087/45)/(1+8*0.6931471805599453096) +
      (2551951591/20)/(1+9*0.6931471805599453092) +
      (-2041646257/12)/(1+10*0.6931471805599453096) +
      (4509824011/30)/(1+11*0.6931471805599453092) +
      (-169184323/2)/(1+12*0.6931471805599453096) +
      (824366543/30)/(1+13*0.6931471805599453092) +
      (-117766649/30)/(1+14*0.6931471805599453096)) := by
    linarith [hb0.2, hb1.2, hb2.2, hb3.2, hb4.2, hb5.2, hb6.2, hb7.2, hb8.2, hb9.2, hb10.2, hb11.2, hb12.2, hb13.2]
  have hSlo_pos : (0:ℝ) < ((1/360)/(1+1*0.6931471805599453096) +
      (-461/72)/(1+2*0.6931471805599453092) +
      (18481/20)/(1+3*0.6931471805599453096) +
      (-6227627/180)/(1+4*0.6931471805599453092) +
      (4862890/9)/(1+5*0.6931471805599453096) +
      (-131950391/30)/(1+6*0.6931471805599453092) +
      (189788326/9)/(1+7*0.6931471805599453096) +
      (-2877521087/45)/(1+8*0.6931471805599453092) +
      (2551951591/20)/(1+9*0.6931471805599453096) +
      (-2041646257/12)/(1+10*0.6931471805599453092) +
      (4509824011/30)/(1+11*0.6931471805599453096) +
      (-169184323/2)/(1+12*0.6931471805599453092) +
      (824366543/30)/(1+13*0.6931471805599453096) +
      (-117766649/30)/(1+14*0.6931471805599453092)) := by norm_num
  have hL_pos : (0:ℝ) < L := lt_of_lt_of_le (by norm_num) hlo
  have h_low : (0.6931471805599453092 : ℝ) * ((1/360)/(1+1*0.6931471805599453096) +
      (-461/72)/(1+2*0.6931471805599453092) +
      (18481/20)/(1+3*0.6931471805599453096) +
      (-6227627/180)/(1+4*0.6931471805599453092) +
      (4862890/9)/(1+5*0.6931471805599453096) +
      (-131950391/30)/(1+6*0.6931471805599453092) +
      (189788326/9)/(1+7*0.6931471805599453096) +
      (-2877521087/45)/(1+8*0.6931471805599453092) +
      (2551951591/20)/(1+9*0.6931471805599453096) +
      (-2041646257/12)/(1+10*0.6931471805599453092) +
      (4509824011/30)/(1+11*0.6931471805599453096) +
      (-169184323/2)/(1+12*0.6931471805599453092) +
      (824366543/30)/(1+13*0.6931471805599453096) +
      (-117766649/30)/(1+14*0.6931471805599453092)) ≤ L * ((1/360)/(1+1*L) +
      (-461/72)/(1+2*L) +
      (18481/20)/(1+3*L) +
      (-6227627/180)/(1+4*L) +
      (4862890/9)/(1+5*L) +
      (-131950391/30)/(1+6*L) +
      (189788326/9)/(1+7*L) +
      (-2877521087/45)/(1+8*L) +
      (2551951591/20)/(1+9*L) +
      (-2041646257/12)/(1+10*L) +
      (4509824011/30)/(1+11*L) +
      (-169184323/2)/(1+12*L) +
      (824366543/30)/(1+13*L) +
      (-117766649/30)/(1+14*L)) :=
    mul_le_mul hlo hS_lo (le_of_lt hSlo_pos) (le_of_lt hL_pos)
  have hS_pos : (0:ℝ) ≤ ((1/360)/(1+1*L) +
      (-461/72)/(1+2*L) +
      (18481/20)/(1+3*L) +
      (-6227627/180)/(1+4*L) +
      (4862890/9)/(1+5*L) +
      (-131950391/30)/(1+6*L) +
      (189788326/9)/(1+7*L) +
      (-2877521087/45)/(1+8*L) +
      (2551951591/20)/(1+9*L) +
      (-2041646257/12)/(1+10*L) +
      (4509824011/30)/(1+11*L) +
      (-169184323/2)/(1+12*L) +
      (824366543/30)/(1+13*L) +
      (-117766649/30)/(1+14*L)) := le_trans (le_of_lt hSlo_pos) hS_lo
  have h_up : L * ((1/360)/(1+1*L) +
      (-461/72)/(1+2*L) +
      (18481/20)/(1+3*L) +
      (-6227627/180)/(1+4*L) +
      (4862890/9)/(1+5*L) +
      (-131950391/30)/(1+6*L) +
      (189788326/9)/(1+7*L) +
      (-2877521087/45)/(1+8*L) +
      (2551951591/20)/(1+9*L) +
      (-2041646257/12)/(1+10*L) +
      (4509824011/30)/(1+11*L) +
      (-169184323/2)/(1+12*L) +
      (824366543/30)/(1+13*L) +
      (-117766649/30)/(1+14*L)) ≤ (0.6931471805599453096 : ℝ) * ((1/360)/(1+1*0.6931471805599453092) +
      (-461/72)/(1+2*0.6931471805599453096) +
      (18481/20)/(1+3*0.6931471805599453092) +
      (-6227627/180)/(1+4*0.6931471805599453096) +
      (4862890/9)/(1+5*0.6931471805599453092) +
      (-131950391/30)/(1+6*0.6931471805599453096) +
      (189788326/9)/(1+7*0.6931471805599453092) +
      (-2877521087/45)/(1+8*0.6931471805599453096) +
      (2551951591/20)/(1+9*0.6931471805599453092) +
      (-2041646257/12)/(1+10*0.6931471805599453096) +
      (4509824011/30)/(1+11*0.6931471805599453092) +
      (-169184323/2)/(1+12*0.6931471805599453096) +
      (824366543/30)/(1+13*0.6931471805599453092) +
      (-117766649/30)/(1+14*0.6931471805599453096)) :=
    mul_le_mul hhi hS_hi hS_pos (by norm_num)
  have hexp := exp_neg_one_bounds
  have hnum1 : (0.6931471805599453096 : ℝ) * ((1/360)/(1+1*0.6931471805599453092) +
      (-461/72)/(1+2*0.6931471805599453096) +
      (18481/20)/(1+3*0.6931471805599453092) +
      (-6227627/180)/(1+4*0.6931471805599453096) +
      (4862890/9)/(1+5*0.6931471805599453092) +
      (-131950391/30)/(1+6*0.6931471805599453096) +
      (189788326/9)/(1+7*0.6931471805599453092) +
      (-2877521087/45)/(1+8*0.6931471805599453096) +
      (2551951591/20)/(1+9*0.6931471805599453092) +
      (-2041646257/12)/(1+10*0.6931471805599453096) +
      (4509824011/30)/(1+11*0.6931471805599453092) +
      (-169184323/2)/(1+12*0.6931471805599453096) +
      (824366543/30)/(1+13*0.6931471805599453092) +
      (-117766649/30)/(1+14*0.6931471805599453096)) - 10000000000/27182818286 < 1/1000000 := by
    norm_num
  have hnum2 : (10000000000/27182818283 : ℝ) - (0.6931471805599453092 : ℝ) * ((1/360)/(1+1*0.6931471805599453096) +
      (-461/72)/(1+2*0.6931471805599453092) +
      (18481/20)/(1+3*0.6931471805599453096) +
      (-6227627/180)/(1+4*0.6931471805599453092) +
      (4862890/9)/(1+5*0.6931471805599453096) +
      (-131950391/30)/(1+6*0.6931471805599453092) +
      (189788326/9)/(1+7*0.6931471805599453096) +
      (-2877521087/45)/(1+8*0.6931471805599453092) +
      (2551951591/20)/(1+9*0.6931471805599453096) +
      (-2041646257/12)/(1+10*0.6931471805599453092) +
      (4509824011/30)/(1+11*0.6931471805599453096) +
      (-169184323/2)/(1+12*0.6931471805599453092) +
      (824366543/30)/(1+13*0.6931471805599453096) +
      (-117766649/30)/(1+14*0.6931471805599453092)) < 1/1000000 := by
    norm_num
  rw [abs_sub_lt_iff]
  constructor
  · linarith [h_up, hexp.1, hnum1]
  · linarith [h_low, hexp.2, hnum2]

set_option maxRecDepth 8000 in
/-- Concrete evaluation: the exact rational coefficients of order 14. -/
lemma stehfestInit_fourteen :
    Stehfest.stehfestInit (14 : ℤ) = [1/360, -461/72, 18481/20, -6227627/180, 4862890/9, -131950391/30, 189788326/9, -2877521087/45, 2551951591/20, -2041646257/12, 4509824011/30, -169184323/2, 824366543/30, -117766649/30] := by
  have ht : Int.tdiv 14 2 = 7 := by decide
  simp only [Stehfest.stehfestInit, ht]
  norm_num
  simp only [Stehfest.coeffLoop, Stehfest.entry, Stehfest.term]
  norm_num [List.range', Nat.factorial, show Int.toNat 7 = 7 from rfl]

/-- The order-14 real coefficient list as explicit literals. -/
lemma coefficientsR_fourteen :
    Stehfest.coefficientsR 14 = [1/360, -461/72, 18481/20, -6227627/180, 4862890/9, -131950391/30, 189788326/9, -2877521087/45, 2551951591/20, -2041646257/12, 4509824011/30, -169184323/2, 824366543/30, -117766649/30] := by
  rw [Stehfest.coefficientsR, stehfestInit_fourteen]
  norm_num

end AccuracyLemmas

set_option maxHeartbeats 1000000 in
/-- C8: for the image `p ↦ 1/(1+p)`, `Stehfest.invert` at order 14 and
`t = 1` returns a value within `1e-6` absolute error of `exp (-1)`. -/
theorem stehfest_accuracy_c8 :
    ∃ r : ℝ, (Stehfest.stehfestInvertT (Stehfest.coefficientsR 14)
        (fun p => 1 / (1 + p)) 1).1 = Except.ok r ∧
      |r - Real.exp (-1)| < 1 / 1000000 := by
  have h := stehfestInvertT_eq (Stehfest.coefficientsR 14)
    (fun p => 1 / (1 + p)) 1 one_ne_zero
  refine ⟨_, by rw [h], ?_⟩
  have hL := log_two_bounds
  have hform : Real.log 2 / 1 *
      ∑ i ∈ Finset.range (Stehfest.coefficientsR 14).length,
        (Stehfest.coefficientsR 14).getD i 0 *
          (fun p => 1 / (1 + p)) ((↑i + 1) * (Real.log 2 / 1)) =
      Real.log 2 * ((1/360)/(1+1*Real.log 2) +
        (-461/72)/(1+2*Real.log 2) +
        (18481/20)/(1+3*Real.log 2) +
        (-6227627/180)/(1+4*Real.log 2) +
        (4862890/9)/(1+5*Real.log 2) +
        (-131950391/30)/(1+6*Real.log 2) +
        (189788326/9)/(1+7*Real.log 2) +
        (-2877521087/45)/(1+8*Real.log 2) +
        (2551951591/20)/(1+9*Real.log 2) +
        (-2041646257/12)/(1+10*Real.log 2) +
        (4509824011/30)/(1+11*Real.log 2) +
        (-169184323/2)/(1+12*Real.log 2) +
        (824366543/30)/(1+13*Real.log 2) +
        (-117766649/30)/(1+14*Real.log 2)) := by
    rw [coefficientsR_fourteen]
    norm_num [Finset.sum_range_succ]
    ring
  rw [hform]
  exact c8_core hL.1 hL.2
